import Mathlib

/-!
Verification of the tree-sitter-zsh external scanner
(src/tree-sitter-zsh/src/scanner.c).

The scanner recognizes a single token kind, UNQUOTED_WHITESPACE: a maximal
run of space/tab/newline characters optionally preceded by one backslash.

Embedding notes.  The C scanner is driven by a host-supplied TSLexer:
`lookahead` is the next unconsumed character (0 at end of stream),
`advance(lexer, skip)` consumes one character — per the tree-sitter API the
second parameter is named `skip` and, when true, marks the consumed
character as whitespace excluded from the token's text; when false the
character counts toward the token — and `result_symbol` is the
matched-kind output slot.  We embed the cursor as a record holding the
remaining input (a `List Char`; `head?` plays the role of the lookahead,
with `none` the end-of-stream sentinel, which like the C sentinel 0
compares unequal to backslash, space, tab and newline), the ordered trace
of consumed characters together with the skip flag each advance call
received, and the `result_symbol` slot.  `scan` is a pure function from
the cursor and the valid-symbol set to the boolean result and the updated
cursor, mirroring the body of `tree_sitter_zsh_external_scanner_scan`
statement by statement.
-/

namespace ZshScanner

/-- The token kinds of the external scanner: `enum TokenType` in scanner.c
has the single member UNQUOTED_WHITESPACE. -/
inductive TokenType where
  | UNQUOTED_WHITESPACE
deriving DecidableEq

/-- Embedding of the host cursor (TSLexer): the remaining unconsumed input,
the trace of consumed characters paired with the skip flag each advance
call was given, and the matched-kind output slot. -/
structure TSLexer where
  input : List Char
  advanced : List (Char × Bool)
  result_symbol : Option TokenType
deriving DecidableEq

/-- The lookahead character: the next unconsumed character, or `none` at
end of stream (the C lexer reports the sentinel 0 there; both fail every
comparison against backslash, space, tab and newline). -/
def lookahead (l : TSLexer) : Option Char :=
  l.input.head?

/-- One `lexer->advance(lexer, skip)` call: consume the lookahead
character, recording the skip flag it was consumed with.  At end of stream
the cursor is unchanged (the host primitive is safe there; the scanner
never advances at end of stream anyway). -/
def advance (l : TSLexer) (skip : Bool) : TSLexer :=
  match l.input with
  | [] => l
  | c :: rest => ⟨rest, l.advanced ++ [(c, skip)], l.result_symbol⟩

/-- The whitespace test of scanner.c:
`lookahead == ' ' || lookahead == '\t' || lookahead == '\n'`. -/
def isWs (c : Char) : Bool :=
  c = ' ' || c = '\t' || c = '\n'

/-- The same test applied to a lookahead value; the end-of-stream sentinel
fails it, exactly as 0 fails the three comparisons in C. -/
def isWsLA (o : Option Char) : Bool :=
  match o with
  | some c => isWs c
  | none => false

/-- The consuming while-loop of scanner.c: while the lookahead is one of
space, tab, newline, `lexer->advance(lexer, false)`. -/
def scanLoop (l : TSLexer) : TSLexer :=
  if h : isWsLA (lookahead l) = true then
    scanLoop (advance l false)
  else
    l
termination_by l.input.length
decreasing_by
  cases hl : l.input with
  | nil =>
      rw [lookahead, hl] at h
      simp [isWsLA] at h
  | cons c rest => simp [advance, hl]

/-- `tree_sitter_zsh_external_scanner_scan`, embedded statement by
statement: if UNQUOTED_WHITESPACE is valid, first skip a single leading
backslash via `advance(lexer, false)` if present, then if the lookahead is
space, tab or newline run the consuming loop, set `result_symbol` and
return true; in every other case return false. -/
def scan (l : TSLexer) (valid_symbols : TokenType → Bool) : Bool × TSLexer :=
  if valid_symbols TokenType.UNQUOTED_WHITESPACE then
    let l1 := if lookahead l = some '\\' then advance l false else l
    if isWsLA (lookahead l1) then
      let l2 := scanLoop l1
      (true, ⟨l2.input, l2.advanced, some TokenType.UNQUOTED_WHITESPACE⟩)
    else
      (false, l1)
  else
    (false, l)

/-- The input that remains to be examined after the optional single
backslash skip at the start of `scan`. -/
def bsSkip (inp : List Char) : List Char :=
  if inp.head? = some '\\' then inp.tail else inp

/-- How many characters the optional backslash skip consumes (1 or 0). -/
def bsCount (inp : List Char) : Nat :=
  if inp.head? = some '\\' then 1 else 0

/-- A whitespace character is never the backslash. -/
theorem isWs_ne_backslash {c : Char} (h : isWs c = true) : c ≠ '\\' := by
  intro e
  subst e
  exact absurd h (by decide)

/-- After dropping the maximal whitespace run, the lookahead fails the
whitespace test. -/
theorem isWsLA_dropWhile (inp : List Char) :
    isWsLA ((inp.dropWhile isWs).head?) = false := by
  induction inp with
  | nil => rfl
  | cons c t ih =>
      by_cases hc : isWs c = true
      · simpa [List.dropWhile_cons, hc] using ih
      · simp [List.dropWhile_cons, hc, isWsLA, Bool.not_eq_true] at *

/-- Splitting off an explicit maximal whitespace run: `takeWhile` returns
exactly the run and `dropWhile` exactly the remainder. -/
theorem takeWhile_append_run (run rest : List Char)
    (hws : ∀ c ∈ run, isWs c = true) (hrest : isWsLA rest.head? = false) :
    (run ++ rest).takeWhile isWs = run ∧
      (run ++ rest).dropWhile isWs = rest := by
  induction run with
  | nil =>
      cases rest with
      | nil => simp
      | cons c t =>
          simp only [isWsLA, List.head?] at hrest
          simp [List.takeWhile_cons, List.dropWhile_cons, hrest]
  | cons c run' ih =>
      have hc : isWs c = true := hws c (by simp)
      have ih' := ih (fun d hd => hws d (by simp [hd]))
      simp [List.takeWhile_cons, List.dropWhile_cons, hc, ih'.1, ih'.2]

/-- Characterisation of the consuming loop: it drops exactly the maximal
leading run of whitespace characters from the input and appends that run,
each character flagged `false`, to the consumption trace. -/
theorem scanLoop_spec (inp : List Char) :
    ∀ (a : List (Char × Bool)) (r : Option TokenType),
      scanLoop ⟨inp, a, r⟩ =
        ⟨inp.dropWhile isWs,
         a ++ (inp.takeWhile isWs).map (fun c => (c, false)), r⟩ := by
  induction inp with
  | nil =>
      intro a r
      rw [scanLoop]
      simp [lookahead, isWsLA]
  | cons c rest ih =>
      intro a r
      rw [scanLoop]
      by_cases hc : isWs c = true
      · simp only [lookahead, List.head?, isWsLA, hc, dite_true, advance]
        rw [ih]
        simp [List.takeWhile_cons, List.dropWhile_cons, hc]
      · simp [lookahead, isWsLA, hc, List.takeWhile_cons, List.dropWhile_cons]

/-- Helper: when UNQUOTED_WHITESPACE is not valid, `scan` is the identity
on the cursor and returns false. -/
theorem scan_not_valid (l : TSLexer) (valid_symbols : TokenType → Bool)
    (hv : valid_symbols TokenType.UNQUOTED_WHITESPACE = false) :
    scan l valid_symbols = (false, l) := by
  simp [scan, hv]

/-- Master characterisation of `scan` when UNQUOTED_WHITESPACE is valid:
the outcome is a function of the input alone — optionally strip one
leading backslash, then succeed exactly when a whitespace character
follows, consuming its maximal run. -/
theorem scan_cases (inp : List Char) (a : List (Char × Bool))
    (r : Option TokenType) (valid_symbols : TokenType → Bool)
    (hv : valid_symbols TokenType.UNQUOTED_WHITESPACE = true) :
    scan ⟨inp, a, r⟩ valid_symbols =
      if isWsLA (bsSkip inp).head? then
        (true, ⟨(bsSkip inp).dropWhile isWs,
                a ++ (inp.take (bsCount inp)).map (fun c => (c, false))
                  ++ ((bsSkip inp).takeWhile isWs).map (fun c => (c, false)),
                some TokenType.UNQUOTED_WHITESPACE⟩)
      else
        (false, ⟨bsSkip inp,
                 a ++ (inp.take (bsCount inp)).map (fun c => (c, false)),
                 r⟩) := by
  by_cases hb : inp.head? = some '\\'
  · obtain ⟨tail, rfl⟩ : ∃ tail, inp = '\\' :: tail := by
      cases inp with
      | nil => simp at hb
      | cons c t =>
          simp only [List.head?, Option.some.injEq] at hb
          exact ⟨t, by rw [hb]⟩
    by_cases hw : isWsLA tail.head? = true
    · simp [scan, hv, lookahead, advance, bsSkip, bsCount, hw,
        scanLoop_spec, List.append_assoc]
    · simp [scan, hv, lookahead, advance, bsSkip, bsCount, hw,
        scanLoop_spec, List.append_assoc]
  · by_cases hw : isWsLA inp.head? = true
    · simp [scan, hv, lookahead, bsSkip, bsCount, hb, hw, scanLoop_spec]
    · simp [scan, hv, lookahead, bsSkip, bsCount, hb, hw, scanLoop_spec]

/-- Claim C1: for every input beginning with one or more characters from
{space, tab, newline} (no leading backslash), when UNQUOTED_WHITESPACE is
valid, `scan` returns true, consumes exactly the maximal leading
whitespace run (the lookahead afterwards fails the whitespace test), and
sets the matched-kind output to UNQUOTED_WHITESPACE. -/
theorem scan_maximal_ws_run (run rest : List Char) (a : List (Char × Bool))
    (r : Option TokenType) (valid_symbols : TokenType → Bool)
    (hv : valid_symbols TokenType.UNQUOTED_WHITESPACE = true)
    (hne : run ≠ []) (hws : ∀ c ∈ run, isWs c = true)
    (hrest : isWsLA rest.head? = false) :
    scan ⟨run ++ rest, a, r⟩ valid_symbols =
      (true, ⟨rest, a ++ run.map (fun c => (c, false)),
        some TokenType.UNQUOTED_WHITESPACE⟩) ∧
    isWsLA (lookahead (scan ⟨run ++ rest, a, r⟩ valid_symbols).2) = false := by
  obtain ⟨c, run', rfl⟩ : ∃ c run', run = c :: run' := by
    cases run with
    | nil => exact absurd rfl hne
    | cons c t => exact ⟨c, t, rfl⟩
  have hc : isWs c = true := hws c (by simp)
  have hnb : c ≠ '\\' := isWs_ne_backslash hc
  have htw := takeWhile_append_run (c :: run') rest hws hrest
  have h1 : bsSkip ((c :: run') ++ rest) = (c :: run') ++ rest := by
    simp [bsSkip, hnb]
  have h2 : bsCount ((c :: run') ++ rest) = 0 := by
    simp [bsCount, hnb]
  have h3 : isWsLA ((c :: run') ++ rest).head? = true := by
    simp [isWsLA, hc]
  rw [scan_cases _ _ _ _ hv, h1, h2, if_pos h3, htw.1, htw.2]
  simp [lookahead, hrest]

/-- Witness for C1 at the concrete input consisting of two spaces then a
letter. -/
theorem scan_maximal_ws_run_witness :
    scan ⟨[' ', ' ', 'x'], [], none⟩ (fun _ => true) =
      (true, ⟨['x'], [(' ', false), (' ', false)],
        some TokenType.UNQUOTED_WHITESPACE⟩) ∧
    isWsLA (lookahead
      (scan ⟨[' ', ' ', 'x'], [], none⟩ (fun _ => true)).2) = false :=
  scan_maximal_ws_run [' ', ' '] ['x'] [] none (fun _ => true) rfl
    (by decide) (by decide) (by decide)

/-- Claim C2: when UNQUOTED_WHITESPACE is not valid, `scan` returns false
and leaves the cursor exactly as it was, regardless of the input. -/
theorem scan_invalid_symbol_frame (l : TSLexer)
    (valid_symbols : TokenType → Bool)
    (hv : valid_symbols TokenType.UNQUOTED_WHITESPACE = false) :
    scan l valid_symbols = (false, l) :=
  scan_not_valid l valid_symbols hv

/-- Witness for C2 at a concrete whitespace input with the symbol turned
off. -/
theorem scan_invalid_symbol_frame_witness :
    scan ⟨[' ', '\t'], [], none⟩ (fun _ => false) =
      (false, ⟨[' ', '\t'], [], none⟩) :=
  scan_invalid_symbol_frame ⟨[' ', '\t'], [], none⟩ (fun _ => false) rfl

/-- Claim C3: with UNQUOTED_WHITESPACE valid, on input backslash followed
by a non-whitespace character, `scan` returns false with the cursor
advanced exactly one character past the backslash: the consumed backslash
is not rolled back on this failure path. -/
theorem scan_backslash_nonws (c : Char) (rest : List Char)
    (a : List (Char × Bool)) (r : Option TokenType)
    (valid_symbols : TokenType → Bool)
    (hv : valid_symbols TokenType.UNQUOTED_WHITESPACE = true)
    (hc : isWs c = false) :
    scan ⟨'\\' :: c :: rest, a, r⟩ valid_symbols =
      (false, ⟨c :: rest, a ++ [('\\', false)], r⟩) := by
  have hw : ¬ (isWsLA (c :: rest).head? = true) := by simp [isWsLA, hc]
  have h1 : bsSkip ('\\' :: c :: rest) = c :: rest := by simp [bsSkip]
  have h2 : bsCount ('\\' :: c :: rest) = 1 := by simp [bsCount]
  rw [scan_cases _ _ _ _ hv, h1, h2, if_neg hw]
  simp

/-- Witness for C3 at the concrete input backslash-then-x. -/
theorem scan_backslash_nonws_witness :
    scan ⟨['\\', 'x'], [], none⟩ (fun _ => true) =
      (false, ⟨['x'], [('\\', false)], none⟩) :=
  scan_backslash_nonws 'x' [] [] none (fun _ => true) rfl (by decide)

/-- Counterexample to C4: on input backslash-then-x with the symbol valid,
`scan` returns false yet the cursor has moved — one character was consumed
and the remaining input changed — so the cursor is not left where it
started on every non-match. -/
theorem scan_rollback_counterexample :
    (scan ⟨['\\', 'x'], [], none⟩ (fun _ => true)).1 = false ∧
    (scan ⟨['\\', 'x'], [], none⟩ (fun _ => true)).2 ≠
      ⟨['\\', 'x'], [], none⟩ := by
  decide

/-- Amended C4: whenever `scan` returns false the cursor is unchanged,
except that when the lookahead was a backslash the single consumed
backslash remains consumed; no other partial consumption is observable on
a non-match. -/
theorem scan_false_consumption (l : TSLexer)
    (valid_symbols : TokenType → Bool)
    (h : (scan l valid_symbols).1 = false) :
    (scan l valid_symbols).2 = l ∨
      (lookahead l = some '\\' ∧
       (scan l valid_symbols).2 =
         ⟨l.input.tail, l.advanced ++ [('\\', false)], l.result_symbol⟩) := by
  obtain ⟨inp, a, r⟩ := l
  by_cases hv : valid_symbols TokenType.UNQUOTED_WHITESPACE = true
  · have key := scan_cases inp a r valid_symbols hv
    by_cases hw : isWsLA (bsSkip inp).head? = true
    · rw [key, if_pos hw] at h
      simp at h
    · rw [key, if_neg hw]
      by_cases hb : inp.head? = some '\\'
      · right
        obtain ⟨tail, rfl⟩ : ∃ tail, inp = '\\' :: tail := by
          cases inp with
          | nil => simp at hb
          | cons c t =>
              simp only [List.head?, Option.some.injEq] at hb
              exact ⟨t, by rw [hb]⟩
        exact ⟨rfl, by simp [bsSkip, bsCount]⟩
      · left
        simp [bsSkip, bsCount, hb]
  · have hv' : valid_symbols TokenType.UNQUOTED_WHITESPACE = false := by
      simpa using hv
    rw [scan_not_valid _ _ hv']
    left
    rfl

/-- Witness for amended C4 at a concrete non-matching input with no
leading backslash. -/
theorem scan_false_consumption_witness :
    (scan ⟨['x'], [], none⟩ (fun _ => true)).2 = ⟨['x'], [], none⟩ ∨
      (lookahead ⟨['x'], [], none⟩ = some '\\' ∧
       (scan ⟨['x'], [], none⟩ (fun _ => true)).2 =
         ⟨[], [('\\', false)], none⟩) :=
  scan_false_consumption ⟨['x'], [], none⟩ (fun _ => true) (by decide)

/-- Counterexample to C5: at input backslash-space-x the claim predicts
the backslash is consumed with the do-not-include-in-token flag (skip set
to true); the scanner in fact passes false — the same include-in-token
flag as for every other advance call. -/
theorem scan_backslash_flag_counterexample :
    (scan ⟨['\\', 'x'], [], none⟩ (fun _ => true)).2.advanced =
      [('\\', false)] ∧
    (scan ⟨['\\', 'x'], [], none⟩ (fun _ => true)).2.advanced ≠
      [('\\', true)] := by
  decide

/-- Amended C5: with UNQUOTED_WHITESPACE valid and a backslash as
lookahead, `scan` advances past the backslash exactly once, with the skip
flag false (include-in-token, tree-sitter convention), the same flag it
passes for whitespace characters; every further consumed character is
whitespace. -/
theorem scan_backslash_advance_once (tail : List Char)
    (r : Option TokenType) (valid_symbols : TokenType → Bool)
    (hv : valid_symbols TokenType.UNQUOTED_WHITESPACE = true) :
    ∃ t, (scan ⟨'\\' :: tail, [], r⟩ valid_symbols).2.advanced =
        ('\\', false) :: t ∧ ∀ p ∈ t, isWs p.1 = true ∧ p.2 = false := by
  have h1 : bsSkip ('\\' :: tail) = tail := by simp [bsSkip]
  have h2 : bsCount ('\\' :: tail) = 1 := by simp [bsCount]
  rw [scan_cases _ _ _ _ hv, h1, h2]
  by_cases hw : isWsLA tail.head? = true
  · rw [if_pos hw]
    refine ⟨(tail.takeWhile isWs).map (fun c => (c, false)), by simp, ?_⟩
    intro p hp
    obtain ⟨c, hc, rfl⟩ := List.mem_map.mp hp
    exact ⟨by simpa using List.mem_takeWhile_imp hc, rfl⟩
  · rw [if_neg hw]
    exact ⟨[], by simp, by simp⟩

/-- Witness for amended C5 at the concrete input backslash-then-x. -/
theorem scan_backslash_advance_once_witness :
    ∃ t, (scan ⟨['\\', 'x'], [], none⟩ (fun _ => true)).2.advanced =
        ('\\', false) :: t ∧ ∀ p ∈ t, isWs p.1 = true ∧ p.2 = false :=
  scan_backslash_advance_once ['x'] none (fun _ => true) rfl

/-- Claim C6: on input backslash, two spaces, then a non-whitespace
character, with the symbol valid, `scan` returns true, consumes exactly
three characters (backslash and both spaces), leaves the cursor at the
non-whitespace character, and reports UNQUOTED_WHITESPACE. -/
theorem scan_backslash_two_spaces (c : Char)
    (valid_symbols : TokenType → Bool)
    (hv : valid_symbols TokenType.UNQUOTED_WHITESPACE = true)
    (hc : isWs c = false) :
    scan ⟨['\\', ' ', ' ', c], [], none⟩ valid_symbols =
      (true, ⟨[c], [('\\', false), (' ', false), (' ', false)],
        some TokenType.UNQUOTED_WHITESPACE⟩) := by
  have hsp : isWs ' ' = true := by decide
  have h1 : bsSkip ['\\', ' ', ' ', c] = [' ', ' ', c] := by simp [bsSkip]
  have h2 : bsCount ['\\', ' ', ' ', c] = 1 := by simp [bsCount]
  have h3 : isWsLA ([' ', ' ', c] : List Char).head? = true := by
    simp [isWsLA, hsp]
  rw [scan_cases _ _ _ _ hv, h1, h2, if_pos h3]
  simp [List.takeWhile_cons, List.dropWhile_cons, hsp, hc]

/-- Witness for C6 at the concrete trailing character x. -/
theorem scan_backslash_two_spaces_witness :
    scan ⟨['\\', ' ', ' ', 'x'], [], none⟩ (fun _ => true) =
      (true, ⟨['x'], [('\\', false), (' ', false), (' ', false)],
        some TokenType.UNQUOTED_WHITESPACE⟩) :=
  scan_backslash_two_spaces 'x' (fun _ => true) rfl (by decide)

/-- Claim C7: `scan` is deterministic and free of hidden state: two
invocations from identical cursor state (same remaining input) with the
same valid-symbol set produce the same boolean result, the same remaining
input, and the same number of newly consumed characters, whatever the
prior consumption trace or result slot held. -/
theorem scan_deterministic (l1 l2 : TSLexer)
    (valid_symbols : TokenType → Bool) (h : l1.input = l2.input) :
    (scan l1 valid_symbols).1 = (scan l2 valid_symbols).1 ∧
    (scan l1 valid_symbols).2.input = (scan l2 valid_symbols).2.input ∧
    (scan l1 valid_symbols).2.advanced.length - l1.advanced.length =
      (scan l2 valid_symbols).2.advanced.length - l2.advanced.length := by
  obtain ⟨i1, a1, r1⟩ := l1
  obtain ⟨i2, a2, r2⟩ := l2
  change i1 = i2 at h
  subst h
  by_cases hv : valid_symbols TokenType.UNQUOTED_WHITESPACE = true
  · rw [scan_cases i1 a1 r1 _ hv, scan_cases i1 a2 r2 _ hv]
    by_cases hw : isWsLA (bsSkip i1).head? = true
    · rw [if_pos hw, if_pos hw]
      refine ⟨rfl, rfl, ?_⟩
      simp only [List.length_append]
      omega
    · rw [if_neg hw, if_neg hw]
      refine ⟨rfl, rfl, ?_⟩
      simp only [List.length_append]
      omega
  · have hv' : valid_symbols TokenType.UNQUOTED_WHITESPACE = false := by
      simpa using hv
    rw [scan_not_valid _ _ hv', scan_not_valid _ _ hv']
    simp

/-- Witness for C7: two cursors over the same remaining input but with
different prior traces and result slots agree on result, remaining input
and consumption count. -/
theorem scan_deterministic_witness :
    (scan ⟨[' ', 'x'], [], none⟩ (fun _ => true)).1 =
      (scan ⟨[' ', 'x'], [('q', true)], some TokenType.UNQUOTED_WHITESPACE⟩
        (fun _ => true)).1 ∧
    (scan ⟨[' ', 'x'], [], none⟩ (fun _ => true)).2.input =
      (scan ⟨[' ', 'x'], [('q', true)], some TokenType.UNQUOTED_WHITESPACE⟩
        (fun _ => true)).2.input ∧
    (scan ⟨[' ', 'x'], [], none⟩ (fun _ => true)).2.advanced.length -
        (TSLexer.mk [' ', 'x'] [] none).advanced.length =
      (scan ⟨[' ', 'x'], [('q', true)], some TokenType.UNQUOTED_WHITESPACE⟩
          (fun _ => true)).2.advanced.length -
        (TSLexer.mk [' ', 'x'] [('q', true)]
          (some TokenType.UNQUOTED_WHITESPACE)).advanced.length :=
  scan_deterministic ⟨[' ', 'x'], [], none⟩
    ⟨[' ', 'x'], [('q', true)], some TokenType.UNQUOTED_WHITESPACE⟩
    (fun _ => true) rfl

/-- Claim C8: `scan` terminates on every finite input (it is a total
function of the embedding, with the consuming loop measured by the length
of the remaining input); the end-of-stream lookahead is a sentinel that is
neither whitespace nor backslash, and `scan` invoked at end of stream
returns false with the cursor unchanged, for every valid-symbol set. -/
theorem scan_end_of_stream (a : List (Char × Bool)) (r : Option TokenType)
    (valid_symbols : TokenType → Bool) :
    isWsLA (lookahead ⟨[], a, r⟩) = false ∧
    lookahead ⟨[], a, r⟩ ≠ some '\\' ∧
    scan ⟨[], a, r⟩ valid_symbols = (false, ⟨[], a, r⟩) := by
  refine ⟨rfl, by simp [lookahead], ?_⟩
  by_cases hv : valid_symbols TokenType.UNQUOTED_WHITESPACE = true
  · rw [scan_cases [] a r _ hv]
    simp [bsSkip, bsCount, isWsLA]
  · exact scan_not_valid _ _ (by simpa using hv)

/-- Claim C9: the only outputs of `scan` are the consumed characters and,
exactly on success, the matched-kind slot: on every false return the
result slot is unchanged, and on every true return it is
UNQUOTED_WHITESPACE. -/
theorem scan_result_symbol_frame (l : TSLexer)
    (valid_symbols : TokenType → Bool) :
    ((scan l valid_symbols).1 = false →
      (scan l valid_symbols).2.result_symbol = l.result_symbol) ∧
    ((scan l valid_symbols).1 = true →
      (scan l valid_symbols).2.result_symbol =
        some TokenType.UNQUOTED_WHITESPACE) := by
  obtain ⟨inp, a, r⟩ := l
  by_cases hv : valid_symbols TokenType.UNQUOTED_WHITESPACE = true
  · rw [scan_cases inp a r _ hv]
    by_cases hw : isWsLA (bsSkip inp).head? = true
    · rw [if_pos hw]
      simp
    · rw [if_neg hw]
      simp
  · rw [scan_not_valid _ _ (by simpa using hv)]
    simp

/-- Witness for C9: on the concrete non-matching input x the result slot
keeps its prior value. -/
theorem scan_result_symbol_frame_witness :
    (scan ⟨['x'], [], none⟩ (fun _ => true)).2.result_symbol = none :=
  (scan_result_symbol_frame ⟨['x'], [], none⟩ (fun _ => true)).1 (by decide)

/-- Claim C10: starting from an empty consumption trace, every character
`scan` consumes is whitespace except possibly a single leading backslash,
and the total advancement is at most one plus the length of the leading
whitespace run after the optional backslash. -/
theorem scan_consumption_shape (l : TSLexer)
    (valid_symbols : TokenType → Bool) (ha : l.advanced = []) :
    ((∀ p ∈ (scan l valid_symbols).2.advanced, isWs p.1 = true) ∨
      ∃ t, (scan l valid_symbols).2.advanced = ('\\', false) :: t ∧
        ∀ p ∈ t, isWs p.1 = true) ∧
    (scan l valid_symbols).2.advanced.length ≤
      1 + ((bsSkip l.input).takeWhile isWs).length := by
  obtain ⟨inp, a, r⟩ := l
  change a = [] at ha
  subst ha
  have hmem : ∀ p ∈ (List.map (fun c => (c, false))
      ((bsSkip inp).takeWhile isWs)), isWs p.1 = true := by
    intro p hp
    obtain ⟨c, hc, rfl⟩ := List.mem_map.mp hp
    simpa using List.mem_takeWhile_imp hc
  by_cases hv : valid_symbols TokenType.UNQUOTED_WHITESPACE = true
  · rw [scan_cases inp [] r _ hv]
    by_cases hb : inp.head? = some '\\'
    · obtain ⟨tail, rfl⟩ : ∃ tail, inp = '\\' :: tail := by
        cases inp with
        | nil => simp at hb
        | cons c t =>
            simp only [List.head?, Option.some.injEq] at hb
            exact ⟨t, by rw [hb]⟩
      have h2 : bsCount ('\\' :: tail) = 1 := by simp [bsCount]
      rw [h2]
      by_cases hw : isWsLA (bsSkip ('\\' :: tail)).head? = true
      · rw [if_pos hw]
        refine ⟨Or.inr ⟨_, by simp, hmem⟩, ?_⟩
        simp only [List.length_append, List.length_map,
          List.take_succ_cons, List.take_zero, List.length_cons,
          List.length_nil]
        omega
      · rw [if_neg hw]
        exact ⟨Or.inr ⟨[], by simp, by simp⟩, by simp⟩
    · have h2 : bsCount inp = 0 := by simp [bsCount, hb]
      rw [h2]
      by_cases hw : isWsLA (bsSkip inp).head? = true
      · rw [if_pos hw]
        refine ⟨Or.inl ?_, by simp⟩
        simpa using hmem
      · rw [if_neg hw]
        exact ⟨Or.inl (by simp), by simp⟩
  · rw [scan_not_valid _ _ (by simpa using hv)]
    exact ⟨Or.inl (by simp), by simp⟩

/-- Witness for C10 at the concrete input backslash-tab-x with a fresh
cursor. -/
theorem scan_consumption_shape_witness :
    ((∀ p ∈ (scan ⟨['\\', '\t', 'x'], [], none⟩
        (fun _ => true)).2.advanced, isWs p.1 = true) ∨
      ∃ t, (scan ⟨['\\', '\t', 'x'], [], none⟩
          (fun _ => true)).2.advanced = ('\\', false) :: t ∧
        ∀ p ∈ t, isWs p.1 = true) ∧
    (scan ⟨['\\', '\t', 'x'], [], none⟩ (fun _ => true)).2.advanced.length ≤
      1 + ((bsSkip ['\\', '\t', 'x']).takeWhile isWs).length :=
  scan_consumption_shape ⟨['\\', '\t', 'x'], [], none⟩ (fun _ => true) rfl

end ZshScanner
